import Mathlib

/-!
Verification development for the AsyncAPI generator core: schema inference,
schema registry deduplication, topic-to-channel mapping, and document merging.
The definitions below are shallow embeddings of the TypeScript sources
(schema inferrers, schema registries, channel managers, generators).
-/

/-! ## JSON values

Payload values as parsed from JSON. JavaScript numbers carrying the integer
exactness check are modelled as rationals; the check corresponds to a
denominator of 1. Arrays and objects are given their own list types so that
all recursion over values is structural.
-/

mutual
inductive JValue where
  | null : JValue
  | bool (b : Bool) : JValue
  | num (q : Rat) : JValue
  | str (s : String) : JValue
  | arr (items : JList) : JValue
  | obj (fields : JFields) : JValue
inductive JList where
  | nil : JList
  | cons (v : JValue) (rest : JList) : JList
inductive JFields where
  | nil : JFields
  | cons (key : String) (v : JValue) (rest : JFields) : JFields
end

def jlistLength : JList → Nat
  | .nil => 0
  | .cons _ rest => jlistLength rest + 1

def jlistTake : Nat → JList → JList
  | 0, _ => .nil
  | _ + 1, .nil => .nil
  | n + 1, .cons v rest => .cons v (jlistTake n rest)

def jfieldsKeys : JFields → List String
  | .nil => []
  | .cons k _ rest => k :: jfieldsKeys rest

/-- Type tag of a schema: either a single tag string or an array of tags. -/
inductive SchemaType where
  | single (t : String)
  | multi (ts : List String)
deriving DecidableEq

/-! ## Schemas

Shallow embedding of the JSONSchema record used by both inferrers. Optional
fields are absent when none, mirroring missing object keys. The properties
record is its own list type so that recursion over schemas is structural.
-/

mutual
inductive Schema where
  | mk (type : Option SchemaType) (format : Option String)
       (properties : Option Props)
       (items : Option Schema)
       (required : Option (List String))
       (examples : Option (List JValue))
       (description : Option String) : Schema
inductive Props where
  | nil : Props
  | cons (key : String) (val : Schema) (rest : Props) : Props
end

def Schema.type : Schema → Option SchemaType
  | .mk t _ _ _ _ _ _ => t

def Schema.format : Schema → Option String
  | .mk _ f _ _ _ _ _ => f

def Schema.properties : Schema → Option Props
  | .mk _ _ ps _ _ _ _ => ps

def Schema.items : Schema → Option Schema
  | .mk _ _ _ it _ _ _ => it

def Schema.required : Schema → Option (List String)
  | .mk _ _ _ _ req _ _ => req

def Schema.examples : Schema → Option (List JValue)
  | .mk _ _ _ _ _ ex _ => ex

def Schema.description : Schema → Option String
  | .mk _ _ _ _ _ _ d => d

/-- Lookup of a property by key, first match wins. -/
def lookupP (k : String) : Props → Option Schema
  | .nil => none
  | .cons k' v rest => if k' = k then some v else lookupP k rest

/-- Assignment of a property: updates an existing key in place, appends a new
key at the end, as JavaScript object assignment does. -/
def setP (k : String) (v : Schema) : Props → Props
  | .nil => .cons k v .nil
  | .cons k' v' rest => if k' = k then .cons k v rest else .cons k' v' (setP k v rest)

def Props.keys : Props → List String
  | .nil => []
  | .cons k _ rest => k :: Props.keys rest

def Props.toList : Props → List (String × Schema)
  | .nil => []
  | .cons k v rest => (k, v) :: Props.toList rest

def Props.ofList : List (String × Schema) → Props
  | [] => .nil
  | (k, v) :: rest => .cons k v (Props.ofList rest)

mutual
def schemaSize : Schema → Nat
  | .mk _ _ ps it _ _ _ =>
    1 +
      (match ps with
       | none => 0
       | some p => propsSize p) +
      (match it with
       | none => 0
       | some s => schemaSize s)

def propsSize : Props → Nat
  | .nil => 0
  | .cons _ v rest => 1 + schemaSize v + propsSize rest
end

/-! ## Small generic helpers: association lists and JavaScript semantics

Association lists model JavaScript Map and plain-object records: a set on an
existing key updates it in place, a set on a new key appends at the end, and
iteration order is insertion order.
-/

def alGet {α : Type} (k : String) : List (String × α) → Option α
  | [] => none
  | (k', v) :: rest => if k' = k then some v else alGet k rest

def alSet {α : Type} (k : String) (v : α) : List (String × α) → List (String × α)
  | [] => [(k, v)]
  | (k', v') :: rest => if k' = k then (k, v) :: rest else (k', v') :: alSet k v rest

/-- Left-biased spread of two records, as in a JavaScript object spread of a
followed by b: entries of b update or append into a. -/
def alSpread {α : Type} (a b : List (String × α)) : List (String × α) :=
  b.foldl (fun acc p => alSet p.1 p.2 acc) a

/-- Lexicographic comparison of strings by character code, the comparison the
JavaScript default Array sort uses for strings. -/
def strLe (a b : String) : Bool :=
  go a.data b.data
where
  go : List Char → List Char → Bool
    | [], _ => true
    | _ :: _, [] => false
    | a :: as, b :: bs =>
      if a.toNat < b.toNat then true
      else if b.toNat < a.toNat then false
      else go as bs

/-- JavaScript default sort on an array of strings. -/
def sortStr (l : List String) : List String :=
  List.insertionSort (fun a b => strLe a b = true) l

/-- Iterating a JavaScript Set built from a list: deduplication keeping the
first occurrence of each element, in insertion order. -/
def jsSetDedupAux : List String → List String → List String
  | _, [] => []
  | seen, x :: xs =>
    if x ∈ seen then jsSetDedupAux seen xs else x :: jsSetDedupAux (x :: seen) xs

def jsSetDedup (l : List String) : List String :=
  jsSetDedupAux [] l

/-- Opening curly brace character, written via its code point. -/
def lbrace : Char := Char.ofNat 123

/-- Closing curly brace character, written via its code point. -/
def rbrace : Char := Char.ofNat 125

def lbraceS : String := lbrace.toString

def rbraceS : String := rbrace.toString

def quoteStr (s : String) : String := "\"" ++ s ++ "\""

def joinComma : List String → String
  | [] => ""
  | [x] => x
  | x :: xs => x ++ "," ++ joinComma xs

def joinSlash : List String → String
  | [] => ""
  | [x] => x
  | x :: xs => x ++ "/" ++ joinSlash xs

/-- Splitting a character list at a separator character, with the semantics of
the JavaScript String split method. -/
def splitOnChar (c : Char) : List Char → List (List Char)
  | [] => [[]]
  | x :: xs =>
    if x = c then [] :: splitOnChar c xs
    else
      match splitOnChar c xs with
      | [] => [[x]]
      | h :: t => (x :: h) :: t

/-- Splitting a topic string on slashes. -/
def splitSlash (s : String) : List String :=
  (splitOnChar '/' s.data).map (fun cs => String.mk cs)

def strStarts (s p : String) : Bool :=
  p.data.isPrefixOf s.data

/-! ## Character classes used by the format detectors -/

def isDigitC (c : Char) : Bool := 48 ≤ c.toNat ∧ c.toNat ≤ 57

def isHexC (c : Char) : Bool :=
  isDigitC c || (97 ≤ c.toNat ∧ c.toNat ≤ 102) || (65 ≤ c.toNat ∧ c.toNat ≤ 70)

def isSpaceC (c : Char) : Bool := c = ' ' || c = '\t' || c = '\n' || c = '\r'

/-- Consume exactly n digits, returning the remaining characters. -/
def takeDigits : Nat → List Char → Option (List Char)
  | 0, cs => some cs
  | _ + 1, [] => none
  | n + 1, c :: cs => if isDigitC c then takeDigits n cs else none

def expectC (c : Char) : List Char → Option (List Char)
  | [] => none
  | x :: xs => if x = c then some xs else none

/-- Consume one or more digits greedily. -/
def takeDigits1 : List Char → Option (List Char)
  | [] => none
  | c :: cs => if isDigitC c then some (cs.dropWhile isDigitC) else none

/-- Count of leading digits. -/
def leadDigits (cs : List Char) : Nat :=
  (cs.takeWhile isDigitC).length

def dropLeadDigits (cs : List Char) : List Char :=
  cs.dropWhile isDigitC

/-! ## String format detectors

Embeddings of the regular expressions in detectStringFormat. Each detector
recognises the same anchored language as its regex on the character list of
the value.
-/

def isoDateTimeHead (cs : List Char) : Option (List Char) := do
  let r ← takeDigits 4 cs
  let r ← expectC '-' r
  let r ← takeDigits 2 r
  let r ← expectC '-' r
  let r ← takeDigits 2 r
  let r ← expectC 'T' r
  let r ← takeDigits 2 r
  let r ← expectC ':' r
  let r ← takeDigits 2 r
  let r ← expectC ':' r
  takeDigits 2 r

/-- Optional timezone suffix, then end of input. -/
def tzEnd : List Char → Bool
  | [] => true
  | 'Z' :: rest => rest.isEmpty
  | c :: rest =>
    (c = '+' || c = '-') &&
      (match (((takeDigits 2 rest).bind (expectC ':')).bind (takeDigits 2)) with
       | some [] => true
       | _ => false)

/-- Optional fractional seconds, then optional timezone, then end. -/
def isoTail (cs : List Char) : Bool :=
  match cs with
  | '.' :: rest =>
    (match takeDigits1 rest with
     | some r => tzEnd r
     | none => false)
  | _ => tzEnd cs

def isIsoDateTime (cs : List Char) : Bool :=
  match isoDateTimeHead cs with
  | some rest => isoTail rest
  | none => false

def isIsoDate (cs : List Char) : Bool :=
  match ((((takeDigits 4 cs).bind (expectC '-')).bind (takeDigits 2)).bind (expectC '-')).bind (takeDigits 2) with
  | some [] => true
  | _ => false

/-- One or two digits, then the rest. -/
def digits12 (cs : List Char) : Option (List Char) :=
  let k := leadDigits cs
  if 1 ≤ k ∧ k ≤ 2 then some (dropLeadDigits cs) else none

/-- One or more whitespace characters, then the rest. -/
def spaces1 (cs : List Char) : Option (List Char) :=
  match cs with
  | c :: rest => if isSpaceC c then some (rest.dropWhile isSpaceC) else none
  | [] => none

/-- Optional case-insensitive AM or PM marker, then end of input. -/
def ampmEnd : List Char → Bool
  | [] => true
  | [c1, c2] =>
    (c1 = 'A' || c1 = 'a' || c1 = 'P' || c1 = 'p') && (c2 = 'M' || c2 = 'm')
  | _ => false

def isUsDateTime (cs : List Char) : Bool :=
  match (do
    let r ← digits12 cs
    let r ← expectC '/' r
    let r ← digits12 r
    let r ← expectC '/' r
    let r ← takeDigits 4 r
    let r ← spaces1 r
    let r ← digits12 r
    let r ← expectC ':' r
    let r ← takeDigits 2 r
    let r ← expectC ':' r
    takeDigits 2 r) with
  | some rest => ampmEnd (rest.dropWhile isSpaceC)
  | none => false

def isTimeFmt (cs : List Char) : Bool :=
  match ((((takeDigits 2 cs).bind (expectC ':')).bind (takeDigits 2)).bind (expectC ':')).bind (takeDigits 2) with
  | some [] => true
  | _ => false

def takeHex : Nat → List Char → Option (List Char)
  | 0, cs => some cs
  | _ + 1, [] => none
  | n + 1, c :: cs => if isHexC c then takeHex n cs else none

def isUuid (cs : List Char) : Bool :=
  match (do
    let r ← takeHex 8 cs
    let r ← expectC '-' r
    let r ← takeHex 4 r
    let r ← expectC '-' r
    let r ← takeHex 4 r
    let r ← expectC '-' r
    let r ← takeHex 4 r
    takeHex 12 (← expectC '-' r)) with
  | some [] => true
  | _ => false

/-- The email regex: a nonempty run without whitespace or at signs, one at
sign, and a domain containing a dot with at least one character on each side. -/
def isEmailL (cs : List Char) : Bool :=
  match splitOnChar '@' cs with
  | [loc, domain] =>
    loc ≠ [] && loc.all (fun c => !isSpaceC c) && domain.all (fun c => !isSpaceC c) &&
      ((domain.drop 1).dropLast.contains '.')
  | _ => false

/-- Rebuild a property record by visiting its keys in sorted order and looking
each one up, as both normalizations do. -/
def sortProps (p : Props) : Props :=
  Props.ofList ((sortStr (Props.keys p)).filterMap
    (fun k => (lookupP k p).map (fun v => (k, v))))

/-! ## Client-side schema inferrer

Embedding of the browser-compatible inferrer in the lib directory.
-/

namespace ClientInferrer

def detectStringFormat (value : String) : Option String :=
  let cs := value.data
  if isIsoDateTime cs then some "date-time"
  else if isIsoDate cs then some "date"
  else if isUsDateTime cs then some "date-time"
  else if isTimeFmt cs then some "time"
  else if isUuid cs then some "uuid"
  else if isEmailL cs then some "email"
  else if strStarts value "http://" || strStarts value "https://" then some "uri"
  else none

def inferStringSchema (value : String) (includeExamples : Bool) : Schema :=
  Schema.mk (some (.single "string")) (detectStringFormat value) none none none
    (if includeExamples && value.length > 0 then some [JValue.str value] else none) none

def inferNumberSchema (q : Rat) (includeExamples : Bool) : Schema :=
  Schema.mk (some (.single (if q.den = 1 then "integer" else "number"))) none none none none
    (if includeExamples then some [JValue.num q] else none) none

/-- Tags contributed by one side of a type union. A falsy single tag, the
empty string, contributes nothing, matching the JavaScript truthiness check. -/
def typeTags : Option SchemaType → List String
  | none => []
  | some (.single t) => if t = "" then [] else [t]
  | some (.multi ts) => ts

/-- The strict-inequality test on the two type fields. Arrays are compared by
reference in JavaScript, so any side holding a tag array compares unequal. -/
def typesDifferJS : Option SchemaType → Option SchemaType → Bool
  | some (.single a), some (.single b) => a ≠ b
  | none, none => false
  | none, some (.single _) => true
  | some (.single _), none => true
  | _, _ => true

mutual
def mergeSchemas : Schema → Schema → Schema
  | s1, .mk t2 _ ps2 it2 req2 _ _ =>
    if typesDifferJS s1.type t2 then
      Schema.mk (some (.multi (jsSetDedup (typeTags s1.type ++ typeTags t2)))) none
        none none none none none
    else if s1.type = some (.single "object") ∧ t2 = some (.single "object") then
      Schema.mk (some (.single "object")) none
        (some (match ps2 with
               | some p2 => mergePropsInto (s1.properties.getD Props.nil) p2
               | none => s1.properties.getD Props.nil))
        none
        (some (sortStr ((jsSetDedup (s1.required.getD [])).filter
          (fun k => (req2.getD []).contains k)))) none none
    else if s1.type = some (.single "array") ∧ t2 = some (.single "array") then
      Schema.mk (some (.single "array")) none none
        (match s1.items, it2 with
         | some i1, some i2 => some (mergeSchemas i1 i2)
         | some i1, none => some i1
         | none, x => x)
        none none none
    else s1

def mergePropsInto : Props → Props → Props
  | acc, .nil => acc
  | acc, .cons k v rest =>
    mergePropsInto
      (match lookupP k acc with
       | some v0 => setP k (mergeSchemas v0 v) acc
       | none => setP k v acc) rest
end

mutual
def inferSchema : JValue → Bool → Schema
  | .null, _ => Schema.mk (some (.single "null")) none none none none none none
  | .str s, includeExamples => inferStringSchema s includeExamples
  | .num q, includeExamples => inferNumberSchema q includeExamples
  | .bool b, includeExamples =>
    Schema.mk (some (.single "boolean")) none none none none
      (if includeExamples then some [JValue.bool b] else none) none
  | .arr items, includeExamples =>
    (match items with
     | .nil => Schema.mk (some (.single "array")) none none none none none none
     | .cons v0 rest =>
       Schema.mk (some (.single "array")) none none
         (some (inferItemsLoop (min (jlistLength rest + 1) 10 - 1) (inferSchema v0 false) rest))
         none
         (if includeExamples then some [JValue.arr (jlistTake 3 (JList.cons v0 rest))] else none)
         none)
  | .obj fields, _ =>
    Schema.mk (some (.single "object")) none (some (inferProps fields)) none
      (some (sortStr (jfieldsKeys fields))) none none

def inferItemsLoop : Nat → Schema → JList → Schema
  | 0, acc, _ => acc
  | _ + 1, acc, .nil => acc
  | n + 1, acc, .cons v rest => inferItemsLoop n (mergeSchemas acc (inferSchema v false)) rest

def inferProps : JFields → Props
  | .nil => .nil
  | .cons k v rest => .cons k (inferSchema v false) (inferProps rest)
end

/-- Truthiness filter for an optional single string field. -/
def truthyStr : Option String → Option String
  | some s => if s = "" then none else some s
  | none => none

/-- Truthiness filter for the type field: an empty single tag is falsy, a tag
array is always truthy. -/
def truthyType : Option SchemaType → Option SchemaType
  | some (.single t) => if t = "" then none else some (.single t)
  | x => x

mutual
/-- The source normalization visits the sorted keys and normalizes each
looked-up child. Lookup commutes with the pointwise normalization of the
children, so this equals normalizing the children first and then rebuilding
the record in sorted key order, which is the shape used here. -/
def normalizeSchema : Schema → Schema
  | .mk t f ps it req _ _ =>
    Schema.mk (truthyType t) (truthyStr f)
      (match ps with
       | none => none
       | some p => some (sortProps (normalizeProps p)))
      (match it with
       | none => none
       | some s => some (normalizeSchema s))
      (req.map sortStr) none none

def normalizeProps : Props → Props
  | .nil => .nil
  | .cons k v rest => .cons k (normalizeSchema v) (normalizeProps rest)
end

def renderType : SchemaType → String
  | .single t => quoteStr t
  | .multi ts => "[" ++ joinComma (ts.map quoteStr) ++ "]"

mutual
/-- JSON serialization of a normalized schema. Keys appear in the insertion
order normalizeSchema uses: type, format, properties, items, required; the
examples and description keys are never present in a normalized schema. -/
def stringifySchema : Schema → String
  | .mk t f ps it req _ _ =>
    lbraceS ++
      joinComma
        ((match t with
          | none => []
          | some st => [quoteStr "type" ++ ":" ++ renderType st]) ++
         (match f with
          | none => []
          | some s => [quoteStr "format" ++ ":" ++ quoteStr s]) ++
         (match ps with
          | none => []
          | some p => [quoteStr "properties" ++ ":" ++ lbraceS ++
              joinComma (stringifyProps p) ++ rbraceS]) ++
         (match it with
          | none => []
          | some s => [quoteStr "items" ++ ":" ++ stringifySchema s]) ++
         (match req with
          | none => []
          | some l => [quoteStr "required" ++ ":[" ++ joinComma (l.map quoteStr) ++ "]"])) ++
      rbraceS

def stringifyProps : Props → List String
  | .nil => []
  | .cons k v rest => (quoteStr k ++ ":" ++ stringifySchema v) :: stringifyProps rest
end

def hashSchema (s : Schema) : String :=
  stringifySchema (normalizeSchema s)

end ClientInferrer

/-! ## Server-side schema inferrer

Embedding of the server inferrer. Its object inference skips metadata keys,
injects a synthetic timestamp property and marks nothing required; its merge
keeps all properties optional. The two-sided merge recursion descends through
lookups on both arguments, so it takes explicit fuel; the wrapper passes fuel
derived from the structural sizes, which always suffices.
-/

mutual
/-- Structural equality of JSON values, modelling the SameValueZero test a
JavaScript Set applies to the primitive example values that reach the
primitive merge path. -/
def jvalBeq : JValue → JValue → Bool
  | .null, .null => true
  | .bool a, .bool b => a = b
  | .num a, .num b => a = b
  | .str a, .str b => a = b
  | .arr a, .arr b => jlistBeq a b
  | .obj a, .obj b => jfieldsBeq a b
  | _, _ => false

def jlistBeq : JList → JList → Bool
  | .nil, .nil => true
  | .cons v1 r1, .cons v2 r2 => jvalBeq v1 v2 && jlistBeq r1 r2
  | _, _ => false

def jfieldsBeq : JFields → JFields → Bool
  | .nil, .nil => true
  | .cons k1 v1 r1, .cons k2 v2 r2 => k1 = k2 && jvalBeq v1 v2 && jfieldsBeq r1 r2
  | _, _ => false
end

def jvalDedupAux : List JValue → List JValue → List JValue
  | _, [] => []
  | seen, x :: xs =>
    if seen.any (fun y => jvalBeq y x) then jvalDedupAux seen xs
    else x :: jvalDedupAux (x :: seen) xs

def jvalDedup (l : List JValue) : List JValue :=
  jvalDedupAux [] l

/-- Truthiness filter for an optional string, used where the JavaScript code
tests a string field before using it. -/
def jsTruthy : Option String → Option String
  | some s => if s = "" then none else some s
  | none => none

namespace ServerInferrer

def detectStringFormat (value : String) : Option String :=
  let cs := value.data
  if isIsoDateTime cs then some "date-time"
  else if isIsoDate cs then some "date"
  else if isUsDateTime cs then some "date-time"
  else if isTimeFmt cs then some "time"
  else if isUuid cs then some "uuid"
  else if isEmailL cs then some "email"
  else if strStarts value "http://" || strStarts value "https://" then some "uri"
  else none

def inferStringSchema (value : String) (includeExamples : Bool) : Schema :=
  Schema.mk (some (.single "string")) (detectStringFormat value) none none none
    (if includeExamples && value.length > 0 then some [JValue.str value] else none) none

def inferNumberSchema (q : Rat) (includeExamples : Bool) : Schema :=
  Schema.mk (some (.single (if q.den = 1 then "integer" else "number"))) none none none none
    (if includeExamples then some [JValue.num q] else none) none

/-- The synthetic timestamp property added to every inferred object schema. -/
def timestampSchema : Schema :=
  Schema.mk (some (.single "string")) (some "date-time") none none none none
    (some "Timestamp when the data was published")

mutual
def inferSchema : JValue → Bool → Schema
  | .null, _ => Schema.mk (some (.single "null")) none none none none none none
  | .str s, includeExamples => inferStringSchema s includeExamples
  | .num q, includeExamples => inferNumberSchema q includeExamples
  | .bool b, includeExamples =>
    Schema.mk (some (.single "boolean")) none none none none
      (if includeExamples then some [JValue.bool b] else none) none
  | .arr items, includeExamples =>
    (match items with
     | .nil => Schema.mk (some (.single "array")) none none none none none none
     | .cons v0 _ =>
       Schema.mk (some (.single "array")) none none
         (some (inferSchema v0 includeExamples)) none none none)
  | .obj fields, includeExamples =>
    Schema.mk (some (.single "object")) none
      (some (setP "_timestamp" timestampSchema (inferProps fields includeExamples)))
      none none none none

def inferProps : JFields → Bool → Props
  | .nil, _ => .nil
  | .cons k v rest, includeExamples =>
    if strStarts k "_" then inferProps rest includeExamples
    else .cons k (inferSchema v includeExamples) (inferProps rest includeExamples)
end

def typeTags : Option SchemaType → List String
  | none => []
  | some (.single t) => if t = "" then [] else [t]
  | some (.multi ts) => ts

def typesDifferJS : Option SchemaType → Option SchemaType → Bool
  | some (.single a), some (.single b) => a ≠ b
  | none, none => false
  | none, some (.single _) => true
  | some (.single _), none => true
  | _, _ => true

def mergeF : Nat → Schema → Schema → Schema
  | 0, s1, _ => s1
  | n + 1, s1, s2 =>
    if typesDifferJS s1.type s2.type then
      Schema.mk (some (.multi (jsSetDedup (typeTags s1.type ++ typeTags s2.type)))) none
        none none none none none
    else if s1.type = some (.single "object") ∧ s2.type = some (.single "object") then
      let ps1 := s1.properties.getD Props.nil
      let ps2 := s2.properties.getD Props.nil
      let allKeys := jsSetDedup (Props.keys ps1 ++ Props.keys ps2)
      Schema.mk (some (.single "object")) none
        (some (Props.ofList (allKeys.filterMap (fun k =>
          match lookupP k ps1, lookupP k ps2 with
          | some p1, some p2 => some (k, mergeF n p1 p2)
          | some p1, none => some (k, p1)
          | none, some p2 => some (k, p2)
          | none, none => none))))
        none none none none
    else if s1.type = some (.single "array") ∧ s2.type = some (.single "array") then
      Schema.mk (some (.single "array")) none none
        (match s1.items, s2.items with
         | some i1, some i2 => some (mergeF n i1 i2)
         | some i1, none => some i1
         | none, x => x)
        none none none
    else
      (match s1 with
       | .mk t f ps it req ex d =>
         Schema.mk t f ps it req
           (match ex, s2.examples with
            | some e1, some e2 => some ((jvalDedup (e1 ++ e2)).take 5)
            | e1, _ => e1) d)

def mergeSchemas (s1 s2 : Schema) : Schema :=
  mergeF (schemaSize s1 + schemaSize s2 + 1) s1 s2

mutual
/-- The source normalization visits the sorted present keys of the schema
record, skipping examples and recursing into properties and items. Keys other
than examples are kept verbatim, including the description. -/
def normalizeSchema : Schema → Schema
  | .mk t f ps it req _ d =>
    Schema.mk t f
      (match ps with
       | none => none
       | some p => some (sortProps (normalizeProps p)))
      (match it with
       | none => none
       | some s => some (normalizeSchema s))
      (req.map sortStr) none d

def normalizeProps : Props → Props
  | .nil => .nil
  | .cons k v rest => .cons k (normalizeSchema v) (normalizeProps rest)
end

def renderType : SchemaType → String
  | .single t => quoteStr t
  | .multi ts => "[" ++ joinComma (ts.map quoteStr) ++ "]"

mutual
/-- JSON serialization of a normalized schema. The server normalization
inserts keys in sorted key order, so the serialization lists the present
fields alphabetically: description, format, items, properties, required,
type; the examples key is never present in a normalized schema. -/
def stringifySchema : Schema → String
  | .mk t f ps it req _ d =>
    lbraceS ++
      joinComma
        ((match d with
          | none => []
          | some s => [quoteStr "description" ++ ":" ++ quoteStr s]) ++
         (match f with
          | none => []
          | some s => [quoteStr "format" ++ ":" ++ quoteStr s]) ++
         (match it with
          | none => []
          | some s => [quoteStr "items" ++ ":" ++ stringifySchema s]) ++
         (match ps with
          | none => []
          | some p => [quoteStr "properties" ++ ":" ++ lbraceS ++
              joinComma (stringifyProps p) ++ rbraceS]) ++
         (match req with
          | none => []
          | some l => [quoteStr "required" ++ ":[" ++ joinComma (l.map quoteStr) ++ "]"]) ++
         (match t with
          | none => []
          | some st => [quoteStr "type" ++ ":" ++ renderType st]))
      ++ rbraceS

def stringifyProps : Props → List String
  | .nil => []
  | .cons k v rest => (quoteStr k ++ ":" ++ stringifySchema v) :: stringifyProps rest
end

def hashSchema (s : Schema) : String :=
  stringifySchema (normalizeSchema s)

def schemasEqual (s1 s2 : Schema) : Bool :=
  hashSchema s1 = hashSchema s2

end ServerInferrer

/-! ## Schema registries

Two registry variants exist in the sources: the browser registry merges into
an existing entry when a proposed name collides with different content, while
the server registry mints suffixed names instead. Both deduplicate by content
hash first. A JavaScript non-null assertion on a missing entry would throw,
so register returns an option, with none marking that unreachable crash.
-/

namespace ClientRegistry

structure SchemaEntry where
  name : String
  schema : Schema
  usageCount : Nat

structure SchemaRegistry where
  schemas : List (String × SchemaEntry)
  hashToName : List (String × String)

def emptyRegistry : SchemaRegistry := ⟨[], []⟩

def SchemaRegistry.register (r : SchemaRegistry) (name : String) (schema : Schema) :
    Option (String × SchemaRegistry) :=
  let hash := ClientInferrer.hashSchema schema
  match alGet hash r.hashToName with
  | some existingName =>
    (match alGet existingName r.schemas with
     | some entry =>
       some (existingName,
         ⟨alSet existingName ⟨entry.name, entry.schema, entry.usageCount + 1⟩ r.schemas,
          r.hashToName⟩)
     | none => none)
  | none =>
    (match alGet name r.schemas with
     | some existing =>
       let merged := ClientInferrer.mergeSchemas existing.schema schema
       let newHash := ClientInferrer.hashSchema merged
       some (name,
         ⟨alSet name ⟨existing.name, merged, existing.usageCount + 1⟩ r.schemas,
          alSet newHash name r.hashToName⟩)
     | none =>
       some (name,
         ⟨alSet name ⟨name, schema, 1⟩ r.schemas,
          alSet hash name r.hashToName⟩))

def SchemaRegistry.get (r : SchemaRegistry) (name : String) : Option Schema :=
  (alGet name r.schemas).map (fun e => e.schema)

def SchemaRegistry.toRecord (r : SchemaRegistry) : List (String × Schema) :=
  r.schemas.map (fun p => (p.1, p.2.schema))

def SchemaRegistry.clear (_ : SchemaRegistry) : SchemaRegistry := ⟨[], []⟩

def SchemaRegistry.size (r : SchemaRegistry) : Nat := r.schemas.length

end ClientRegistry

namespace ServerRegistry

structure SchemaEntry where
  name : String
  schema : Schema
  usageCount : Nat

structure SchemaRegistry where
  schemas : List (String × SchemaEntry)
  hashToName : List (String × String)

def emptyRegistry : SchemaRegistry := ⟨[], []⟩

/-- The while loop probing name, name underscore 1, name underscore 2, and so
on. Each probed name is distinct, so the loop frees within size plus one
steps; the fuel argument bounds it and its exhaustion is unreachable from
register. -/
def registerLoop (r : SchemaRegistry) (schema : Schema) (hash : String) (name : String) :
    String → Nat → Nat → Option (String × SchemaRegistry)
  | _, _, 0 => none
  | uniqueName, counter, fuel + 1 =>
    match alGet uniqueName r.schemas with
    | some existing =>
      if ServerInferrer.hashSchema existing.schema = hash then
        some (uniqueName,
          ⟨alSet uniqueName ⟨existing.name, existing.schema, existing.usageCount + 1⟩ r.schemas,
           r.hashToName⟩)
      else registerLoop r schema hash name (name ++ "_" ++ toString counter) (counter + 1) fuel
    | none =>
      some (uniqueName,
        ⟨alSet uniqueName ⟨uniqueName, schema, 1⟩ r.schemas,
         alSet hash uniqueName r.hashToName⟩)

def SchemaRegistry.register (r : SchemaRegistry) (name : String) (schema : Schema) :
    Option (String × SchemaRegistry) :=
  let hash := ServerInferrer.hashSchema schema
  match alGet hash r.hashToName with
  | some existingName =>
    (match alGet existingName r.schemas with
     | some existing =>
       some (existingName,
         ⟨alSet existingName ⟨existing.name, existing.schema, existing.usageCount + 1⟩ r.schemas,
          r.hashToName⟩)
     | none => none)
  | none => registerLoop r schema hash name name 1 (r.schemas.length + 1)

def alDelete {α : Type} (k : String) : List (String × α) → List (String × α)
  | [] => []
  | (k', v) :: rest => if k' = k then rest else (k', v) :: alDelete k rest

def SchemaRegistry.mergeWith (r : SchemaRegistry) (name : String) (newSchema : Schema) :
    SchemaRegistry :=
  match alGet name r.schemas with
  | some existing =>
    let merged := ServerInferrer.mergeSchemas existing.schema newSchema
    let newHash := ServerInferrer.hashSchema merged
    let oldHash := ServerInferrer.hashSchema existing.schema
    ⟨alSet name ⟨existing.name, merged, existing.usageCount + 1⟩ r.schemas,
     alSet newHash name (alDelete oldHash r.hashToName)⟩
  | none => r

def SchemaRegistry.get (r : SchemaRegistry) (name : String) : Option SchemaEntry :=
  alGet name r.schemas

def SchemaRegistry.has (r : SchemaRegistry) (name : String) : Bool :=
  (alGet name r.schemas).isSome

def SchemaRegistry.findBySchema (r : SchemaRegistry) (schema : Schema) : Option String :=
  alGet (ServerInferrer.hashSchema schema) r.hashToName

def SchemaRegistry.toRecord (r : SchemaRegistry) : List (String × Schema) :=
  r.schemas.map (fun p => (p.1, p.2.schema))

def SchemaRegistry.clear (_ : SchemaRegistry) : SchemaRegistry := ⟨[], []⟩

end ServerRegistry

/-! ## Topic substitution rules, messages, and configuration -/

structure TopicSubstitution where
  levelIndex : Nat
  parameterName : String
  description : Option String
  values : Option (List String)
  pattern : Option String
  replacement : Option String

structure ExtractedMessage where
  topic : String
  payload : JValue
  modelName : Option String
  timestamp : Nat

inductive ChannelMode where
  | verbose
  | parameterized
deriving DecidableEq

structure GeneratorConfig where
  asyncApiVersion : String
  channelMode : ChannelMode
  outputFormat : String
  topicSubstitutions : List TopicSubstitution
  includeExamples : Bool

structure ParamDef where
  description : Option String
  enum : Option (List String)

structure ChannelDefinition where
  channelId : String
  topic : String
  parameters : List (String × ParamDef)
  messages : List ExtractedMessage

/-! ## Channel manager

Embedding of the server channel manager. Regular expression compilation is a
host capability, so it is passed in as a function from a pattern to an
optional matcher; a pattern the host cannot compile yields none, which this
code surfaces as a thrown error because the construction site has no
try-catch around it.
-/

namespace ChannelManager

def matchesSubstitution (compile : String → Option (String → Bool)) (value : String)
    (sub : TopicSubstitution) : Except String Bool :=
  let vs := sub.values.getD []
  if vs.length > 0 then pure (vs.contains value)
  else
    match sub.pattern with
    | some p =>
      if p ≠ "" then
        match compile p with
        | some test => pure (test value)
        | none => throw "SyntaxError: Invalid regular expression"
      else pure true
    | none => pure true

def applySubstitutions (compile : String → Option (String → Bool)) (topic : String)
    (substitutions : List TopicSubstitution) :
    Except String (String × List (String × String)) := do
  let st ← substitutions.foldlM
    (fun (st : List String × List (String × String)) sub => do
      let (parts, parameters) := st
      if sub.levelIndex < parts.length then
        let originalValue := parts.getD sub.levelIndex ""
        let m ← matchesSubstitution compile originalValue sub
        if m then
          pure (parts.set sub.levelIndex (lbraceS ++ sub.parameterName ++ rbraceS),
            alSet sub.parameterName originalValue parameters)
        else pure (parts, parameters)
      else pure (parts, parameters))
    (splitSlash topic, ([] : List (String × String)))
  pure (joinSlash st.1, st.2)

def buildParameterDefinitions (usedParameters : List (String × String))
    (substitutions : List TopicSubstitution) : List (String × ParamDef) :=
  usedParameters.foldl
    (fun definitions p =>
      match substitutions.find? (fun s => s.parameterName = p.1) with
      | some sub =>
        alSet p.1
          ⟨jsTruthy sub.description,
           (match sub.values with
            | some vs => if vs.length > 0 then some vs else none
            | none => none)⟩
          definitions
      | none => definitions)
    []

/-- Split a character list at the first closing brace, returning the content
before it and the remainder after it. -/
def splitAtRbrace : List Char → Option (List Char × List Char)
  | [] => none
  | c :: rest =>
    if c = rbrace then some ([], rest)
    else (splitAtRbrace rest).map (fun p => (c :: p.1, p.2))

/-- The brace-stripping regex pass: a brace pair with nonempty content loses
its braces, anything else is kept; scanning resumes after a replacement. -/
def stripBracesF : Nat → List Char → List Char
  | 0, cs => cs
  | _ + 1, [] => []
  | fuel + 1, c :: rest =>
    if c = lbrace then
      match splitAtRbrace rest with
      | some (content, rem) =>
        if content ≠ [] then content ++ stripBracesF fuel rem
        else c :: stripBracesF fuel rest
      | none => c :: stripBracesF fuel rest
    else c :: stripBracesF fuel rest

def stripBraces (cs : List Char) : List Char :=
  stripBracesF (cs.length + 1) cs

def trimUnderscores (cs : List Char) : List Char :=
  ((cs.dropWhile (fun c => c = '_')).reverse.dropWhile (fun c => c = '_')).reverse

def collapseUnderscores : List Char → List Char
  | [] => []
  | [c] => [c]
  | a :: b :: rest =>
    if a = '_' ∧ b = '_' then collapseUnderscores (b :: rest)
    else a :: collapseUnderscores (b :: rest)

def topicToChannelId (topic : String) : String :=
  String.mk
    (collapseUnderscores
      (trimUnderscores
        ((stripBraces topic.data).map
          (fun c => if c = '/' ∨ c = '-' ∨ c = '.' then '_' else c))))

def buildVerboseChannels (messages : List ExtractedMessage) : List ChannelDefinition :=
  (messages.foldl
    (fun channelMap message =>
      let channelId := topicToChannelId message.topic
      let entry := (alGet message.topic channelMap).getD ⟨channelId, message.topic, [], []⟩
      alSet message.topic
        ⟨entry.channelId, entry.topic, entry.parameters, entry.messages ++ [message]⟩
        channelMap)
    []).map Prod.snd

def buildParameterizedChannels (compile : String → Option (String → Bool))
    (messages : List ExtractedMessage) (substitutions : List TopicSubstitution) :
    Except String (List ChannelDefinition) := do
  let channelMap ← messages.foldlM
    (fun (channelMap : List (String × ChannelDefinition)) message => do
      let pt ← applySubstitutions compile message.topic substitutions
      let (parameterizedTopic, parameters) := pt
      let channelId := topicToChannelId parameterizedTopic
      let entry := (alGet parameterizedTopic channelMap).getD
        ⟨channelId, parameterizedTopic, buildParameterDefinitions parameters substitutions, []⟩
      pure (alSet parameterizedTopic
        ⟨entry.channelId, entry.topic, entry.parameters, entry.messages ++ [message]⟩
        channelMap))
    []
  pure (channelMap.map Prod.snd)

def buildChannels (compile : String → Option (String → Bool))
    (messages : List ExtractedMessage) (config : GeneratorConfig) :
    Except String (List ChannelDefinition) :=
  match config.channelMode with
  | .verbose => pure (buildVerboseChannels messages)
  | .parameterized => buildParameterizedChannels compile messages config.topicSubstitutions

end ChannelManager

/-! ## Client channel manager topic substitutions

The browser channel manager applies regex replacement rules to the whole
topic, with a try-catch that skips a rule whose pattern does not compile. The
host regex engine is passed in as a function from a pattern and a replacement
to an optional global replacer; none models the compilation error the catch
swallows.
-/

namespace ClientChannelManager

def applyTopicSubstitutions (compileG : String → String → Option (String → String))
    (topic : String) (substitutions : List TopicSubstitution) : String :=
  substitutions.foldl
    (fun result sub =>
      match sub.pattern, sub.replacement with
      | some p, some rep =>
        if p ≠ "" ∧ rep ≠ "" then
          match compileG p rep with
          | some replaceAll => replaceAll result
          | none => result
        else result
      | _, _ => result)
    topic

end ClientChannelManager

/-! ## Document assembler and document merge

Embedding of the document types and the merge entry point. TypeScript types
the documents structurally, so one record covers both dialect shapes; the 2.6
merge reads channels and component schemas, the 3.0 merge also reads
operations and component messages.
-/

namespace Assembler

/-- A message payload: either a reference object or an inline schema. -/
inductive Payload26 where
  | ref (r : String)
  | inline (s : Schema)

structure Message26 where
  name : Option String
  title : Option String
  contentType : Option String
  payload : Option Payload26

/-- The payload reference of a message, when its payload is a reference. -/
def Message26.payloadRef (m : Message26) : Option String :=
  match m.payload with
  | some (.ref r) => some r
  | _ => none

/-- The message slot of a 2.6 operation: a single message, a oneOf list, or a
raw reference object. -/
inductive MessageOrOneOf where
  | single (m : Message26)
  | oneOf (ms : List Message26)
  | refObj (r : String)

structure Operation26 where
  operationId : Option String
  summary : Option String
  message : Option MessageOrOneOf

/-- An entry of a 3.0 message list: a reference or an inline message. -/
inductive MsgPointer where
  | ref (r : String)
  | inline (m : Message26)

structure Operation30 where
  action : Option String
  channel : Option String
  messages : Option (List MsgPointer)

structure ChannelItem where
  description : Option String
  address : Option String
  parameters : Option (List (String × ParamDef))
  subscribe : Option Operation26
  publish : Option Operation26
  messages : Option (List (String × MsgPointer))

structure AsyncAPIDocument where
  asyncapi : String
  channels : List (String × ChannelItem)
  operations : List (String × Operation30)
  schemas : List (String × Schema)
  messages : List (String × Message26)

def MessageOrOneOf.toMsgList : MessageOrOneOf → List Message26
  | .single m => [m]
  | .oneOf l => l
  | .refObj _ => [⟨none, none, none, none⟩]

def mergeMessages26 (existing newMsg : MessageOrOneOf) : MessageOrOneOf :=
  let existingMessages := existing.toMsgList
  let newMessages := newMsg.toMsgList
  let existingRefs := existingMessages.filterMap Message26.payloadRef
  let allMessages := existingMessages ++
    newMessages.filter (fun m =>
      match m.payloadRef with
      | some r => !(existingRefs.contains r)
      | none => false)
  match allMessages with
  | [m] => .single m
  | l => .oneOf l

def mergeChannelItems26 (existing newItem : ChannelItem) : ChannelItem :=
  let params :=
    match newItem.parameters with
    | some np => some (alSpread (existing.parameters.getD []) np)
    | none => existing.parameters
  let sub :=
    match newItem.subscribe with
    | some nsub =>
      (match nsub.message with
       | some nmsg =>
         (match existing.subscribe with
          | none => some nsub
          | some esub =>
            (match esub.message with
             | some emsg =>
               (match emsg, nmsg with
                | .refObj _, _ => some esub
                | _, .refObj _ => some esub
                | _, _ =>
                  some ⟨esub.operationId, esub.summary, some (mergeMessages26 emsg nmsg)⟩)
             | none => some esub))
       | none => existing.subscribe)
    | none => existing.subscribe
  ⟨existing.description, existing.address, params, sub, existing.publish, existing.messages⟩

def mergeAsyncAPI26 (existing newDoc : AsyncAPIDocument) : AsyncAPIDocument :=
  let channels := newDoc.channels.foldl
    (fun acc p =>
      match alGet p.1 acc with
      | some existingCh => alSet p.1 (mergeChannelItems26 existingCh p.2) acc
      | none => alSet p.1 p.2 acc)
    existing.channels
  let schemas := newDoc.schemas.foldl
    (fun acc p =>
      match alGet p.1 acc with
      | some _ => acc
      | none => alSet p.1 p.2 acc)
    existing.schemas
  ⟨existing.asyncapi, channels, existing.operations, schemas, existing.messages⟩

def mergeChannels30 (existing newChannel : ChannelItem) : ChannelItem :=
  ⟨existing.description, existing.address,
   (match newChannel.parameters with
    | some np => some (alSpread (existing.parameters.getD []) np)
    | none => existing.parameters),
   existing.subscribe, existing.publish,
   (match newChannel.messages with
    | some nm => some (alSpread (existing.messages.getD []) nm)
    | none => existing.messages)⟩

def mergeOperations30 (existing newOp : Operation30) : Operation30 :=
  match newOp.messages with
  | some nmsgs =>
    let existingRefs := (existing.messages.getD []).map
      (fun m => match m with | .ref r => r | .inline _ => "")
    let newMessages := nmsgs.filter
      (fun m => match m with | .ref r => !(existingRefs.contains r) | .inline _ => true)
    ⟨existing.action, existing.channel, some ((existing.messages.getD []) ++ newMessages)⟩
  | none => ⟨existing.action, existing.channel, existing.messages⟩

def mergeAsyncAPI30 (existing newDoc : AsyncAPIDocument) : AsyncAPIDocument :=
  let channels := newDoc.channels.foldl
    (fun acc p =>
      match alGet p.1 acc with
      | some existingCh => alSet p.1 (mergeChannels30 existingCh p.2) acc
      | none => alSet p.1 p.2 acc)
    existing.channels
  let operations := newDoc.operations.foldl
    (fun acc p =>
      match alGet p.1 acc with
      | some existingOp => alSet p.1 (mergeOperations30 existingOp p.2) acc
      | none => alSet p.1 p.2 acc)
    existing.operations
  let schemas := newDoc.schemas.foldl
    (fun acc p =>
      match alGet p.1 acc with
      | some _ => acc
      | none => alSet p.1 p.2 acc)
    existing.schemas
  let messages := newDoc.messages.foldl
    (fun acc p =>
      match alGet p.1 acc with
      | some _ => acc
      | none => alSet p.1 p.2 acc)
    existing.messages
  ⟨existing.asyncapi, channels, operations, schemas, messages⟩

/-- The merge entry point: the dialect is chosen by the version marker of the
existing document alone, and the merge never fails. -/
def mergeAsyncAPIDocs (existing newDoc : AsyncAPIDocument) : AsyncAPIDocument :=
  if strStarts existing.asyncapi "2." then mergeAsyncAPI26 existing newDoc
  else mergeAsyncAPI30 existing newDoc

end Assembler

/-! ## Concrete sample values used by the scenarios -/

def intSchema : Schema := Schema.mk (some (.single "integer")) none none none none none none

def strSchema : Schema := Schema.mk (some (.single "string")) none none none none none none

/-- The left object of the required-intersection example: properties x and y,
both required. -/
def reqExObjA : Schema :=
  Schema.mk (some (.single "object")) none
    (some (.cons "x" intSchema (.cons "y" intSchema .nil))) none
    (some ["x", "y"]) none none

/-- The right object of the required-intersection example: properties x and z,
only x required. -/
def reqExObjB : Schema :=
  Schema.mk (some (.single "object")) none
    (some (.cons "x" intSchema (.cons "z" strSchema .nil))) none
    (some ["x"]) none none

def msgLine1 : ExtractedMessage := ⟨"line/1/temp", JValue.null, none, 0⟩

def msgLine2 : ExtractedMessage := ⟨"line/2/temp", JValue.null, none, 0⟩

def lineSub : TopicSubstitution := ⟨1, "lineId", none, none, none, none⟩

def verboseCfg : GeneratorConfig := ⟨"2.6.0", .verbose, "yaml", [], true⟩

def paramCfg : GeneratorConfig := ⟨"2.6.0", .parameterized, "yaml", [lineSub], true⟩

/-- A substitution rule with an invalid regex pattern, an unterminated
character class. -/
def badSub : TopicSubstitution := ⟨0, "p", none, none, some "[", some "x"⟩

def badParamCfg : GeneratorConfig := ⟨"2.6.0", .parameterized, "yaml", [badSub], true⟩

def msgAB : ExtractedMessage := ⟨"a/b", JValue.null, none, 0⟩

def ch26 : Assembler.ChannelItem := ⟨some "existing channel", none, none, none, none, none⟩

def ch30 : Assembler.ChannelItem := ⟨some "incoming channel", some "x/y", none, none, none, none⟩

def doc26 : Assembler.AsyncAPIDocument := ⟨"2.6.0", [("a/b", ch26)], [], [], []⟩

def doc30 : Assembler.AsyncAPIDocument := ⟨"3.0.0", [("x_y", ch30)], [], [], []⟩

/-- A nonempty schema type: a nonempty single tag or a nonempty tag set. -/
def schemaTypeNonempty : SchemaType → Prop
  | .single t => t ≠ ""
  | .multi ts => ts ≠ []

/-- The tag set of a schema, for stating when two type fields denote
different sets of tags. -/
def tagSet (s : Schema) : Finset String :=
  (ClientInferrer.typeTags s.type).toFinset

/-- An integer leaf schema carrying an example value. -/
def intSchemaEx : Schema :=
  Schema.mk (some (.single "integer")) none none none none (some [JValue.num 1]) none

/-- Witness object for hash stability: properties a and b in insertion
order, required in one order, examples present at both levels. -/
def c5w1 : Schema :=
  Schema.mk (some (.single "object")) none
    (some (.cons "a" intSchemaEx (.cons "b" strSchema .nil))) none
    (some ["b", "a"]) (some [JValue.num 3]) none

/-- The same object with properties and required reordered and examples
removed. -/
def c5w2 : Schema :=
  Schema.mk (some (.single "object")) none
    (some (.cons "b" strSchema (.cons "a" intSchema .nil))) none
    (some ["a", "b"]) none none

/-! ## Structural identity up to ordering and examples

Two schemas are related when they agree on everything except the insertion
order of object properties, the order of the required arrays, and the
examples. This is the identity the content hash is meant to capture.
-/

/-- The required arrays agree up to order, or are both absent. -/
def ReqPerm : Option (List String) → Option (List String) → Prop
  | none, none => True
  | some l1, some l2 => l1.Perm l2
  | _, _ => False

inductive HashEquiv : Schema → Schema → Prop where
  | mk : ∀ (t : Option SchemaType) (f : Option String) (ps1 ps2 : Option Props)
      (it1 it2 : Option Schema) (req1 req2 : Option (List String))
      (ex1 ex2 : Option (List JValue)) (d : Option String),
      (ps1 = none ↔ ps2 = none) →
      (∀ p1 p2, ps1 = some p1 → ps2 = some p2 → (Props.keys p1).Perm (Props.keys p2)) →
      (∀ p1 p2 k v1 v2, ps1 = some p1 → ps2 = some p2 →
        lookupP k p1 = some v1 → lookupP k p2 = some v2 → HashEquiv v1 v2) →
      (it1 = none ↔ it2 = none) →
      (∀ i1 i2, it1 = some i1 → it2 = some i2 → HashEquiv i1 i2) →
      ReqPerm req1 req2 →
      HashEquiv (Schema.mk t f ps1 it1 req1 ex1 d) (Schema.mk t f ps2 it2 req2 ex2 d)

/-! ## Order facts about the string comparison and sorting -/

theorem charEqOfToNatEq {a b : Char} (h : a.toNat = b.toNat) : a = b := by
  have hv : a.val = b.val := by
    apply UInt32.eq_of_toBitVec_eq
    apply BitVec.eq_of_toNat_eq
    exact h
  exact Char.eq_of_val_eq hv

theorem stringDataEq {a b : String} (h : a.data = b.data) : a = b := by
  cases a
  cases b
  exact congrArg String.mk h

theorem strLeGo_total : ∀ as bs : List Char, strLe.go as bs = true ∨ strLe.go bs as = true := by
  intro as
  induction as with
  | nil => intro bs; left; simp [strLe.go]
  | cons a as ih =>
    intro bs
    cases bs with
    | nil => right; simp [strLe.go]
    | cons b bs =>
      simp only [strLe.go]
      by_cases h1 : a.toNat < b.toNat
      · left; rw [if_pos h1]
      · by_cases h2 : b.toNat < a.toNat
        · right; rw [if_pos h2]
        · rw [if_neg h1, if_neg h2, if_neg h2, if_neg h1]
          exact ih bs

theorem strLeGo_trans : ∀ as bs cs : List Char,
    strLe.go as bs = true → strLe.go bs cs = true → strLe.go as cs = true := by
  intro as
  induction as with
  | nil => intro bs cs _ _; simp [strLe.go]
  | cons a as ih =>
    intro bs cs hab hbc
    cases bs with
    | nil => simp [strLe.go] at hab
    | cons b bs =>
      cases cs with
      | nil => simp [strLe.go] at hbc
      | cons c cs =>
        simp only [strLe.go] at hab hbc ⊢
        by_cases hab1 : a.toNat < b.toNat <;> by_cases hab2 : b.toNat < a.toNat <;>
          by_cases hbc1 : b.toNat < c.toNat <;> by_cases hbc2 : c.toNat < b.toNat <;>
            first
            | omega
            | (rw [if_pos (show a.toNat < c.toNat by omega)])
            | (rw [if_neg hab1, if_neg hab2] at hab
               rw [if_neg hbc1, if_neg hbc2] at hbc
               rw [if_neg (show ¬ a.toNat < c.toNat by omega),
                   if_neg (show ¬ c.toNat < a.toNat by omega)]
               exact ih bs cs hab hbc)
            | (rw [if_pos hbc2] at hbc; exact absurd hbc (by rw [if_neg hbc1]; simp))
            | (rw [if_pos hab2] at hab; exact absurd hab (by rw [if_neg hab1]; simp))

theorem strLeGo_antisymm : ∀ as bs : List Char,
    strLe.go as bs = true → strLe.go bs as = true → as = bs := by
  intro as
  induction as with
  | nil =>
    intro bs _ hba
    cases bs with
    | nil => rfl
    | cons b bs => simp [strLe.go] at hba
  | cons a as ih =>
    intro bs hab hba
    cases bs with
    | nil => simp [strLe.go] at hab
    | cons b bs =>
      simp only [strLe.go] at hab hba
      by_cases h1 : a.toNat < b.toNat
      · rw [if_neg (show ¬ b.toNat < a.toNat by omega), if_pos h1] at hba
        simp at hba
      · by_cases h2 : b.toNat < a.toNat
        · rw [if_neg h1, if_pos h2] at hab
          simp at hab
        · rw [if_neg h1, if_neg h2] at hab
          rw [if_neg h2, if_neg h1] at hba
          have heq : a = b := charEqOfToNatEq (by omega)
          rw [heq, ih bs hab hba]

instance : IsTotal String (fun a b => strLe a b = true) :=
  ⟨fun a b => strLeGo_total a.data b.data⟩

instance : IsTrans String (fun a b => strLe a b = true) :=
  ⟨fun a b c => strLeGo_trans a.data b.data c.data⟩

instance : IsAntisymm String (fun a b => strLe a b = true) :=
  ⟨fun a b h1 h2 => stringDataEq (strLeGo_antisymm a.data b.data h1 h2)⟩

theorem sortStr_eq_of_perm {l₁ l₂ : List String} (h : l₁.Perm l₂) : sortStr l₁ = sortStr l₂ := by
  apply List.eq_of_perm_of_sorted (r := fun a b => strLe a b = true)
  · exact (List.perm_insertionSort _ l₁).trans (h.trans (List.perm_insertionSort _ l₂).symm)
  · exact List.sorted_insertionSort _ l₁
  · exact List.sorted_insertionSort _ l₂

theorem mem_sortStr {x : String} {l : List String} : x ∈ sortStr l ↔ x ∈ l :=
  (List.perm_insertionSort _ l).mem_iff

theorem mem_jsSetDedupAux : ∀ (seen l : List String) (x : String),
    x ∈ jsSetDedupAux seen l ↔ (x ∈ l ∧ x ∉ seen) := by
  intro seen l
  induction l generalizing seen with
  | nil => intro x; simp [jsSetDedupAux]
  | cons y ys ih =>
    intro x
    by_cases hy : y ∈ seen
    · simp only [jsSetDedupAux, if_pos hy, ih, List.mem_cons]
      constructor
      · rintro ⟨hx, hns⟩
        exact ⟨Or.inr hx, hns⟩
      · rintro ⟨rfl | hx, hns⟩
        · exact absurd hy hns
        · exact ⟨hx, hns⟩
    · simp only [jsSetDedupAux, if_neg hy, ih, List.mem_cons]
      constructor
      · rintro (rfl | ⟨hx, hns⟩)
        · exact ⟨Or.inl rfl, hy⟩
        · refine ⟨Or.inr hx, fun hc => hns (Or.inr hc)⟩
      · rintro ⟨rfl | hx, hns⟩
        · exact Or.inl rfl
        · by_cases hxy : x = y
          · exact Or.inl hxy
          · exact Or.inr ⟨hx, fun hc => (Or.elim hc hxy hns : False)⟩

theorem mem_jsSetDedup {x : String} {l : List String} : x ∈ jsSetDedup l ↔ x ∈ l := by
  simp [jsSetDedup, mem_jsSetDedupAux]

/-! ## Property record lemmas -/

theorem lookupP_isSome_of_mem_keys : ∀ (p : Props) (k : String),
    k ∈ Props.keys p → ∃ v, lookupP k p = some v
  | .nil, k, h => by simp [Props.keys] at h
  | .cons k' v rest, k, h => by
    by_cases hk : k' = k
    · exact ⟨v, by simp [lookupP, hk]⟩
    · have h' : k ∈ Props.keys rest := by
        rcases List.mem_cons.mp (by simpa [Props.keys] using h) with h0 | h0
        · exact absurd h0.symm hk
        · exact h0
      rcases lookupP_isSome_of_mem_keys rest k h' with ⟨w, hw⟩
      exact ⟨w, by simp [lookupP, hk, hw]⟩

theorem keysNormalizePropsC : ∀ p : Props,
    Props.keys (ClientInferrer.normalizeProps p) = Props.keys p
  | .nil => by simp [ClientInferrer.normalizeProps, Props.keys]
  | .cons k v rest => by
    simp [ClientInferrer.normalizeProps, Props.keys, keysNormalizePropsC rest]

theorem lookupNormalizePropsC : ∀ (p : Props) (k : String),
    lookupP k (ClientInferrer.normalizeProps p)
      = (lookupP k p).map ClientInferrer.normalizeSchema
  | .nil, k => by simp [ClientInferrer.normalizeProps, lookupP]
  | .cons k' v rest, k => by
    by_cases hk : k' = k
    · simp [ClientInferrer.normalizeProps, lookupP, hk]
    · simp [ClientInferrer.normalizeProps, lookupP, hk, lookupNormalizePropsC rest k]

theorem keysNormalizePropsS : ∀ p : Props,
    Props.keys (ServerInferrer.normalizeProps p) = Props.keys p
  | .nil => by simp [ServerInferrer.normalizeProps, Props.keys]
  | .cons k v rest => by
    simp [ServerInferrer.normalizeProps, Props.keys, keysNormalizePropsS rest]

theorem lookupNormalizePropsS : ∀ (p : Props) (k : String),
    lookupP k (ServerInferrer.normalizeProps p)
      = (lookupP k p).map ServerInferrer.normalizeSchema
  | .nil, k => by simp [ServerInferrer.normalizeProps, lookupP]
  | .cons k' v rest, k => by
    by_cases hk : k' = k
    · simp [ServerInferrer.normalizeProps, lookupP, hk]
    · simp [ServerInferrer.normalizeProps, lookupP, hk, lookupNormalizePropsS rest k]

theorem normalizeC_mk (t : Option SchemaType) (f : Option String) (ps : Option Props)
    (it : Option Schema) (req : Option (List String)) (ex : Option (List JValue))
    (d : Option String) :
    ClientInferrer.normalizeSchema (Schema.mk t f ps it req ex d)
      = Schema.mk (ClientInferrer.truthyType t) (ClientInferrer.truthyStr f)
        (match ps with
         | none => none
         | some p => some (sortProps (ClientInferrer.normalizeProps p)))
        (match it with
         | none => none
         | some s => some (ClientInferrer.normalizeSchema s))
        (req.map sortStr) none none := by
  cases ps <;> cases it <;> simp [ClientInferrer.normalizeSchema]

theorem normalizeS_mk (t : Option SchemaType) (f : Option String) (ps : Option Props)
    (it : Option Schema) (req : Option (List String)) (ex : Option (List JValue))
    (d : Option String) :
    ServerInferrer.normalizeSchema (Schema.mk t f ps it req ex d)
      = Schema.mk t f
        (match ps with
         | none => none
         | some p => some (sortProps (ServerInferrer.normalizeProps p)))
        (match it with
         | none => none
         | some s => some (ServerInferrer.normalizeSchema s))
        (req.map sortStr) none d := by
  cases ps <;> cases it <;> simp [ServerInferrer.normalizeSchema]

theorem normalizeC_eq_of_hashEquiv {s1 s2 : Schema} (h : HashEquiv s1 s2) :
    ClientInferrer.normalizeSchema s1 = ClientInferrer.normalizeSchema s2 := by
  induction h with
  | mk t f ps1 ps2 it1 it2 req1 req2 ex1 ex2 d hpsN hkeys hvals hitN hit hreq ihv ihi =>
    have hprops :
        (match ps1 with
         | none => none
         | some p => some (sortProps (ClientInferrer.normalizeProps p)))
          = (match ps2 with
             | none => none
             | some p => some (sortProps (ClientInferrer.normalizeProps p))) := by
      cases ps1 with
      | none =>
        cases ps2 with
        | none => rfl
        | some p2 => simp at hpsN
      | some p1 =>
        cases ps2 with
        | none => simp at hpsN
        | some p2 =>
          simp only [Option.some.injEq]
          simp only [sortProps]
          apply congrArg Props.ofList
          rw [keysNormalizePropsC, keysNormalizePropsC,
            sortStr_eq_of_perm (hkeys p1 p2 rfl rfl)]
          apply List.filterMap_congr
          intro k hk
          have hk2 : k ∈ Props.keys p2 := mem_sortStr.mp hk
          have hk1 : k ∈ Props.keys p1 := ((hkeys p1 p2 rfl rfl).mem_iff).mpr hk2
          obtain ⟨v1, hv1⟩ := lookupP_isSome_of_mem_keys p1 k hk1
          obtain ⟨v2, hv2⟩ := lookupP_isSome_of_mem_keys p2 k hk2
          rw [lookupNormalizePropsC, lookupNormalizePropsC, hv1, hv2]
          simp only [Option.map_some']
          rw [ihv p1 p2 k v1 v2 rfl rfl hv1 hv2]
    have hitems :
        (match it1 with
         | none => none
         | some s => some (ClientInferrer.normalizeSchema s))
          = (match it2 with
             | none => none
             | some s => some (ClientInferrer.normalizeSchema s)) := by
      cases it1 with
      | none =>
        cases it2 with
        | none => rfl
        | some i2 => simp at hitN
      | some i1 =>
        cases it2 with
        | none => simp at hitN
        | some i2 => simp only [Option.some.injEq]; exact ihi i1 i2 rfl rfl
    have hr : req1.map sortStr = req2.map sortStr := by
      cases req1 with
      | none =>
        cases req2 with
        | none => rfl
        | some l2 => simp [ReqPerm] at hreq
      | some l1 =>
        cases req2 with
        | none => simp [ReqPerm] at hreq
        | some l2 =>
          simp only [ReqPerm] at hreq
          simp only [Option.map_some']
          rw [sortStr_eq_of_perm hreq]
    rw [normalizeC_mk, normalizeC_mk, hprops, hitems, hr]
    cases ps2 <;> cases it2 <;> rfl

theorem normalizeS_eq_of_hashEquiv {s1 s2 : Schema} (h : HashEquiv s1 s2) :
    ServerInferrer.normalizeSchema s1 = ServerInferrer.normalizeSchema s2 := by
  induction h with
  | mk t f ps1 ps2 it1 it2 req1 req2 ex1 ex2 d hpsN hkeys hvals hitN hit hreq ihv ihi =>
    have hprops :
        (match ps1 with
         | none => none
         | some p => some (sortProps (ServerInferrer.normalizeProps p)))
          = (match ps2 with
             | none => none
             | some p => some (sortProps (ServerInferrer.normalizeProps p))) := by
      cases ps1 with
      | none =>
        cases ps2 with
        | none => rfl
        | some p2 => simp at hpsN
      | some p1 =>
        cases ps2 with
        | none => simp at hpsN
        | some p2 =>
          simp only [Option.some.injEq]
          simp only [sortProps]
          apply congrArg Props.ofList
          rw [keysNormalizePropsS, keysNormalizePropsS,
            sortStr_eq_of_perm (hkeys p1 p2 rfl rfl)]
          apply List.filterMap_congr
          intro k hk
          have hk2 : k ∈ Props.keys p2 := mem_sortStr.mp hk
          have hk1 : k ∈ Props.keys p1 := ((hkeys p1 p2 rfl rfl).mem_iff).mpr hk2
          obtain ⟨v1, hv1⟩ := lookupP_isSome_of_mem_keys p1 k hk1
          obtain ⟨v2, hv2⟩ := lookupP_isSome_of_mem_keys p2 k hk2
          rw [lookupNormalizePropsS, lookupNormalizePropsS, hv1, hv2]
          simp only [Option.map_some']
          rw [ihv p1 p2 k v1 v2 rfl rfl hv1 hv2]
    have hitems :
        (match it1 with
         | none => none
         | some s => some (ServerInferrer.normalizeSchema s))
          = (match it2 with
             | none => none
             | some s => some (ServerInferrer.normalizeSchema s)) := by
      cases it1 with
      | none =>
        cases it2 with
        | none => rfl
        | some i2 => simp at hitN
      | some i1 =>
        cases it2 with
        | none => simp at hitN
        | some i2 => simp only [Option.some.injEq]; exact ihi i1 i2 rfl rfl
    have hr : req1.map sortStr = req2.map sortStr := by
      cases req1 with
      | none =>
        cases req2 with
        | none => rfl
        | some l2 => simp [ReqPerm] at hreq
      | some l1 =>
        cases req2 with
        | none => simp [ReqPerm] at hreq
        | some l2 =>
          simp only [ReqPerm] at hreq
          simp only [Option.map_some']
          rw [sortStr_eq_of_perm hreq]
    rw [normalizeS_mk, normalizeS_mk, hprops, hitems, hr]
    cases ps2 <;> cases it2 <;> rfl

/-! ## Association list lemmas -/

theorem alGet_alSet_ne {α : Type} (k k' : String) (v : α) :
    ∀ m : List (String × α), k' ≠ k → alGet k' (alSet k v m) = alGet k' m := by
  intro m hne
  induction m with
  | nil =>
    simp only [alSet, alGet]
    rw [if_neg (fun h => hne (Eq.symm h))]
  | cons p rest ih =>
    by_cases hk : p.1 = k
    · simp only [alSet, hk, if_pos]
      simp only [alGet]
      rw [if_neg (fun h => hne h.symm), if_neg (hk ▸ (fun h => hne h.symm))]
    · cases p with
      | mk pk pv =>
        simp only [alSet, alGet] at hk ⊢
        rw [if_neg hk]
        by_cases hpk : pk = k'
        · simp [alGet, hpk]
        · simp only [alGet, if_neg hpk]
          exact ih

/-- Leaf schemas that differ only in their examples are hash equivalent. -/
theorem hashEquivLeaf (t : Option SchemaType) (f : Option String)
    (ex1 ex2 : Option (List JValue)) (d : Option String) :
    HashEquiv (Schema.mk t f none none none ex1 d) (Schema.mk t f none none none ex2 d) :=
  HashEquiv.mk t f none none none none none none ex1 ex2 d
    Iff.rfl
    (fun _ _ h => nomatch h)
    (fun _ _ _ _ _ h => nomatch h)
    Iff.rfl
    (fun _ _ h => nomatch h)
    trivial

/-! ## The claims -/

/-- C5: two structurally identical fragments that differ only in object
property insertion order, in the order of their required arrays, or in their
examples receive the same hash string, in both the client and the server
hashing: the hash ignores examples and sorts object keys and the required
array before serializing. -/
theorem c5_hash_stability (s1 s2 : Schema) (h : HashEquiv s1 s2) :
    ClientInferrer.hashSchema s1 = ClientInferrer.hashSchema s2 ∧
    ServerInferrer.hashSchema s1 = ServerInferrer.hashSchema s2 :=
  ⟨congrArg ClientInferrer.stringifySchema (normalizeC_eq_of_hashEquiv h),
   congrArg ServerInferrer.stringifySchema (normalizeS_eq_of_hashEquiv h)⟩

theorem c5_hash_stability_witness :
    ClientInferrer.hashSchema c5w1 = ClientInferrer.hashSchema c5w2 ∧
    ServerInferrer.hashSchema c5w1 = ServerInferrer.hashSchema c5w2 := by
  apply c5_hash_stability
  apply HashEquiv.mk
  · simp
  · intro p1 p2 h1 h2
    cases h1
    cases h2
    decide
  · intro p1 p2 k v1 v2 h1 h2 hv1 hv2
    cases h1
    cases h2
    simp only [lookupP] at hv1 hv2
    by_cases hka : "a" = k
    · subst hka
      rw [if_pos rfl] at hv1
      rw [if_neg (by decide), if_pos rfl] at hv2
      injection hv1 with hv1
      injection hv2 with hv2
      subst hv1
      subst hv2
      exact hashEquivLeaf _ _ _ _ _
    · by_cases hkb : "b" = k
      · subst hkb
        rw [if_neg (by decide), if_pos rfl] at hv1
        rw [if_pos rfl] at hv2
        injection hv1 with hv1
        injection hv2 with hv2
        subst hv1
        subst hv2
        exact hashEquivLeaf _ _ _ _ _
      · rw [if_neg hka, if_neg hkb] at hv1
        exact absurd hv1 (by simp)
  · simp
  · intro i1 i2 h
    exact absurd h (by simp)
  · show ReqPerm (some ["b", "a"]) (some ["a", "b"])
    simp only [ReqPerm]
    decide

/-- C9: inference from any defined, non-undefined JSON value produces a
fragment whose type attribute is present and non-empty, in both dialects. -/
theorem c9_inferred_type_nonempty (v : JValue) (b : Bool) :
    (∃ t, (ClientInferrer.inferSchema v b).type = some t ∧ schemaTypeNonempty t) ∧
    (∃ t, (ServerInferrer.inferSchema v b).type = some t ∧ schemaTypeNonempty t) := by
  constructor
  · cases v with
    | null => exact ⟨.single "null", rfl, by simp [schemaTypeNonempty]⟩
    | bool x => exact ⟨.single "boolean", rfl, by simp [schemaTypeNonempty]⟩
    | num q =>
      exact ⟨.single (if q.den = 1 then "integer" else "number"), rfl, by
        by_cases h : q.den = 1 <;> simp [schemaTypeNonempty, h]⟩
    | str s => exact ⟨.single "string", rfl, by simp [schemaTypeNonempty]⟩
    | arr items =>
      cases items with
      | nil => exact ⟨.single "array", rfl, by simp [schemaTypeNonempty]⟩
      | cons v0 rest => exact ⟨.single "array", rfl, by simp [schemaTypeNonempty]⟩
    | obj fields => exact ⟨.single "object", rfl, by simp [schemaTypeNonempty]⟩
  · cases v with
    | null => exact ⟨.single "null", rfl, by simp [schemaTypeNonempty]⟩
    | bool x => exact ⟨.single "boolean", rfl, by simp [schemaTypeNonempty]⟩
    | num q =>
      exact ⟨.single (if q.den = 1 then "integer" else "number"), rfl, by
        by_cases h : q.den = 1 <;> simp [schemaTypeNonempty, h]⟩
    | str s => exact ⟨.single "string", rfl, by simp [schemaTypeNonempty]⟩
    | arr items =>
      cases items with
      | nil => exact ⟨.single "array", rfl, by simp [schemaTypeNonempty]⟩
      | cons v0 rest => exact ⟨.single "array", rfl, by simp [schemaTypeNonempty]⟩
    | obj fields => exact ⟨.single "object", rfl, by simp [schemaTypeNonempty]⟩

/-- C10: inferring from the empty array yields exactly a fragment of type
array, with no items and no examples, even when example capture is on, in
both dialects. -/
theorem c10_empty_array_schema (b : Bool) :
    ClientInferrer.inferSchema (JValue.arr JList.nil) b
      = Schema.mk (some (.single "array")) none none none none none none ∧
    ServerInferrer.inferSchema (JValue.arr JList.nil) b
      = Schema.mk (some (.single "array")) none none none none none none := by
  cases b <;> exact ⟨rfl, rfl⟩

/-- C1: registering a fragment under one name and then a content-identical
fragment under another name returns the first name, increments the usage
counter, and creates no new entry, in both registry variants. -/
theorem c1_content_over_name (f f' : Schema) (A B : String)
    (hc : ClientInferrer.hashSchema f' = ClientInferrer.hashSchema f)
    (hs : ServerInferrer.hashSchema f' = ServerInferrer.hashSchema f) :
    (ClientRegistry.SchemaRegistry.register ⟨[], []⟩ A f
      = some (A, ⟨[(A, ⟨A, f, 1⟩)], [(ClientInferrer.hashSchema f, A)]⟩)) ∧
    (ClientRegistry.SchemaRegistry.register
        ⟨[(A, ⟨A, f, 1⟩)], [(ClientInferrer.hashSchema f, A)]⟩ B f'
      = some (A, ⟨[(A, ⟨A, f, 2⟩)], [(ClientInferrer.hashSchema f, A)]⟩)) ∧
    (ServerRegistry.SchemaRegistry.register ⟨[], []⟩ A f
      = some (A, ⟨[(A, ⟨A, f, 1⟩)], [(ServerInferrer.hashSchema f, A)]⟩)) ∧
    (ServerRegistry.SchemaRegistry.register
        ⟨[(A, ⟨A, f, 1⟩)], [(ServerInferrer.hashSchema f, A)]⟩ B f'
      = some (A, ⟨[(A, ⟨A, f, 2⟩)], [(ServerInferrer.hashSchema f, A)]⟩)) := by
  refine ⟨?_, ?_, ?_, ?_⟩
  · simp [ClientRegistry.SchemaRegistry.register, alGet, alSet]
  · simp [ClientRegistry.SchemaRegistry.register, alGet, alSet, hc]
  · simp [ServerRegistry.SchemaRegistry.register, ServerRegistry.registerLoop, alGet, alSet]
  · simp [ServerRegistry.SchemaRegistry.register, alGet, alSet, hs]

theorem c1_content_over_name_witness :
    (ClientRegistry.SchemaRegistry.register ⟨[], []⟩ "A" strSchema
      = some ("A", ⟨[("A", ⟨"A", strSchema, 1⟩)], [(ClientInferrer.hashSchema strSchema, "A")]⟩)) ∧
    (ClientRegistry.SchemaRegistry.register
        ⟨[("A", ⟨"A", strSchema, 1⟩)], [(ClientInferrer.hashSchema strSchema, "A")]⟩ "B" strSchema
      = some ("A", ⟨[("A", ⟨"A", strSchema, 2⟩)], [(ClientInferrer.hashSchema strSchema, "A")]⟩)) ∧
    (ServerRegistry.SchemaRegistry.register ⟨[], []⟩ "A" strSchema
      = some ("A", ⟨[("A", ⟨"A", strSchema, 1⟩)], [(ServerInferrer.hashSchema strSchema, "A")]⟩)) ∧
    (ServerRegistry.SchemaRegistry.register
        ⟨[("A", ⟨"A", strSchema, 1⟩)], [(ServerInferrer.hashSchema strSchema, "A")]⟩ "B" strSchema
      = some ("A", ⟨[("A", ⟨"A", strSchema, 2⟩)], [(ServerInferrer.hashSchema strSchema, "A")]⟩)) :=
  c1_content_over_name strSchema strSchema "A" "B" rfl rfl

/-- C2 counterexample: after a name-colliding register the registry keeps the
stale hash mapping. Registering an integer fragment under N and then a string
fragment under the same name merges in place and returns N, yet the hash of
the original integer fragment, which differs from the merged hash, still maps
to N afterwards, so the stale mapping was not removed. -/
theorem c2_stale_hash_counterexample :
    ((ClientRegistry.SchemaRegistry.register ⟨[], []⟩ "N" intSchema).bind
        (fun p => ClientRegistry.SchemaRegistry.register p.2 "N" strSchema)).map
        (fun p => (p.1, alGet (ClientInferrer.hashSchema intSchema) p.2.hashToName))
      = some ("N", some "N") ∧
    ClientInferrer.hashSchema strSchema ≠ ClientInferrer.hashSchema intSchema ∧
    ClientInferrer.hashSchema (ClientInferrer.mergeSchemas intSchema strSchema)
      ≠ ClientInferrer.hashSchema intSchema := by
  refine ⟨rfl, by decide, by decide⟩

/-- C2 (amended): when the proposed name has an entry and the incoming hash is
not yet mapped, register merges the fragment into the existing entry in
place, maps the merged hash to the name, increments usage, and returns the
same name; the stale hash mapping is left in place, only the merged hash key
is added or updated. -/
theorem c2_name_collision_merge (r : ClientRegistry.SchemaRegistry) (name : String)
    (g : Schema) (e : ClientRegistry.SchemaEntry)
    (hhash : alGet (ClientInferrer.hashSchema g) r.hashToName = none)
    (hname : alGet name r.schemas = some e) :
    ClientRegistry.SchemaRegistry.register r name g
      = some (name,
          ⟨alSet name ⟨e.name, ClientInferrer.mergeSchemas e.schema g, e.usageCount + 1⟩ r.schemas,
           alSet (ClientInferrer.hashSchema (ClientInferrer.mergeSchemas e.schema g)) name
             r.hashToName⟩) ∧
    ∀ k, k ≠ ClientInferrer.hashSchema (ClientInferrer.mergeSchemas e.schema g) →
      alGet k (alSet (ClientInferrer.hashSchema (ClientInferrer.mergeSchemas e.schema g)) name
          r.hashToName)
        = alGet k r.hashToName := by
  constructor
  · simp [ClientRegistry.SchemaRegistry.register, hhash, hname]
  · intro k hk
    exact alGet_alSet_ne _ _ _ _ hk

theorem c2_name_collision_merge_witness :
    alGet (ClientInferrer.hashSchema strSchema)
        [(ClientInferrer.hashSchema intSchema, "N")] = none ∧
    ClientRegistry.SchemaRegistry.register
        ⟨[("N", ⟨"N", intSchema, 1⟩)], [(ClientInferrer.hashSchema intSchema, "N")]⟩ "N" strSchema
      = some ("N",
          ⟨alSet "N" ⟨"N", ClientInferrer.mergeSchemas intSchema strSchema, 1 + 1⟩
             [("N", ⟨"N", intSchema, 1⟩)],
           alSet (ClientInferrer.hashSchema (ClientInferrer.mergeSchemas intSchema strSchema)) "N"
             [(ClientInferrer.hashSchema intSchema, "N")]⟩) := by
  refine ⟨rfl, ?_⟩
  exact (c2_name_collision_merge
    ⟨[("N", ⟨"N", intSchema, 1⟩)], [(ClientInferrer.hashSchema intSchema, "N")]⟩
    "N" strSchema ⟨"N", intSchema, 1⟩ rfl rfl).1

/-- C3 counterexample: the server dialect merge of the two objects from the
required-intersection example yields a fragment with no required list at all
rather than the intersection, so required is not the intersection for every
mergeSchemas in the sources. -/
theorem c3_required_counterexample :
    (ServerInferrer.mergeSchemas reqExObjA reqExObjB).required = none ∧
    (none : Option (List String)) ≠ some ["x"] := by
  exact ⟨rfl, by simp⟩

/-- C3 (amended): for the client dialect merge of two object fragments, a key
is in the merged required list exactly when it is in the required lists of
both inputs, and the required-intersection example yields exactly the list holding
x; the server dialect merge instead drops the required list entirely. -/
theorem c3_required_intersection :
    (∀ s1 s2 : Schema, ∀ k : String,
      s1.type = some (.single "object") → s2.type = some (.single "object") →
      (k ∈ ((ClientInferrer.mergeSchemas s1 s2).required.getD []) ↔
        (k ∈ s1.required.getD [] ∧ k ∈ s2.required.getD []))) ∧
    (ClientInferrer.mergeSchemas reqExObjA reqExObjB).required = some ["x"] ∧
    (ServerInferrer.mergeSchemas reqExObjA reqExObjB).required = none := by
  refine ⟨?_, rfl, rfl⟩
  intro s1 s2 k h1 h2
  cases s2 with
  | mk t2 f2 ps2 it2 req2 ex2 d2 =>
    have ht2 : t2 = some (.single "object") := h2
    have hreq : (ClientInferrer.mergeSchemas s1 (Schema.mk t2 f2 ps2 it2 req2 ex2 d2)).required
        = some (sortStr ((jsSetDedup (s1.required.getD [])).filter
            (fun k => (req2.getD []).contains k))) := by
      rw [ClientInferrer.mergeSchemas.eq_def]
      simp only [h1, ht2]
      simp [ClientInferrer.typesDifferJS, Schema.required]
    rw [hreq]
    have hr2 : (Schema.mk t2 f2 ps2 it2 req2 ex2 d2).required = req2 := rfl
    rw [hr2]
    simp only [Option.getD_some]
    rw [mem_sortStr]
    simp only [List.mem_filter, mem_jsSetDedup]
    simp

/-- The two inputs of the required-intersection example have object type. -/
theorem c3_required_intersection_witness :
    reqExObjA.type = some (.single "object") ∧
    reqExObjB.type = some (.single "object") ∧
    ("x" ∈ ((ClientInferrer.mergeSchemas reqExObjA reqExObjB).required.getD []) ↔
      ("x" ∈ reqExObjA.required.getD [] ∧ "x" ∈ reqExObjB.required.getD [])) ∧
    ("y" ∈ ((ClientInferrer.mergeSchemas reqExObjA reqExObjB).required.getD []) ↔
      ("y" ∈ reqExObjA.required.getD [] ∧ "y" ∈ reqExObjB.required.getD [])) :=
  ⟨rfl, rfl,
   c3_required_intersection.1 reqExObjA reqExObjB "x" rfl rfl,
   c3_required_intersection.1 reqExObjA reqExObjB "y" rfl rfl⟩

/-- C4 counterexample: merging a string fragment with an integer fragment
takes the union branch but lists the tags in first-appearance order, string
before integer, which is not the sorted union. -/
theorem c4_union_not_sorted_counterexample :
    (ClientInferrer.mergeSchemas strSchema intSchema).type
      = some (.multi ["string", "integer"]) ∧
    sortStr ["string", "integer"] = ["integer", "string"] ∧
    (["string", "integer"] : List String) ≠ ["integer", "string"] := by
  refine ⟨rfl, by decide, by decide⟩

theorem serverTypeTags_eq (o : Option SchemaType) :
    ServerInferrer.typeTags o = ClientInferrer.typeTags o := by
  cases o with
  | none => rfl
  | some st => cases st <;> rfl

theorem typesDifferC_of_tagSet_ne (o1 o2 : Option SchemaType)
    (h : (ClientInferrer.typeTags o1).toFinset ≠ (ClientInferrer.typeTags o2).toFinset) :
    ClientInferrer.typesDifferJS o1 o2 = true := by
  cases o1 with
  | none =>
    cases o2 with
    | none => exact absurd rfl h
    | some st => cases st <;> simp [ClientInferrer.typesDifferJS]
  | some st1 =>
    cases st1 with
    | single a =>
      cases o2 with
      | none => simp [ClientInferrer.typesDifferJS]
      | some st2 =>
        cases st2 with
        | single b =>
          by_cases hab : a = b
          · subst hab; exact absurd rfl h
          · simp [ClientInferrer.typesDifferJS, hab]
        | multi ts => simp [ClientInferrer.typesDifferJS]
    | multi ts =>
      cases o2 with
      | none => simp [ClientInferrer.typesDifferJS]
      | some st2 => cases st2 <;> simp [ClientInferrer.typesDifferJS]

theorem typesDifferS_of_tagSet_ne (o1 o2 : Option SchemaType)
    (h : (ClientInferrer.typeTags o1).toFinset ≠ (ClientInferrer.typeTags o2).toFinset) :
    ServerInferrer.typesDifferJS o1 o2 = true := by
  cases o1 with
  | none =>
    cases o2 with
    | none => exact absurd rfl h
    | some st => cases st <;> simp [ServerInferrer.typesDifferJS]
  | some st1 =>
    cases st1 with
    | single a =>
      cases o2 with
      | none => simp [ServerInferrer.typesDifferJS]
      | some st2 =>
        cases st2 with
        | single b =>
          by_cases hab : a = b
          · subst hab; exact absurd rfl h
          · simp [ServerInferrer.typesDifferJS, hab]
        | multi ts => simp [ServerInferrer.typesDifferJS]
    | multi ts =>
      cases o2 with
      | none => simp [ServerInferrer.typesDifferJS]
      | some st2 => cases st2 <;> simp [ServerInferrer.typesDifferJS]

theorem serverMerge_union (s1 s2 : Schema)
    (hd : ServerInferrer.typesDifferJS s1.type s2.type = true) :
    ServerInferrer.mergeSchemas s1 s2
      = Schema.mk (some (.multi (jsSetDedup
          (ServerInferrer.typeTags s1.type ++ ServerInferrer.typeTags s2.type)))) none none none
          none none none := by
  show ServerInferrer.mergeF (schemaSize s1 + schemaSize s2 + 1) s1 s2 = _
  simp only [ServerInferrer.mergeF]
  rw [if_pos hd]

/-- C4 (amended): when the tag sets of two fragments differ, both merges
return a union fragment whose type lists the deduplicated tags of the first
fragment followed by those of the second, in first-appearance order rather
than sorted; in particular the fragment inferred from the integer 1 merged
with the fragment inferred from the string x has type integer then string. -/
theorem c4_type_union (s1 s2 : Schema) (h : tagSet s1 ≠ tagSet s2) :
    ClientInferrer.mergeSchemas s1 s2
      = Schema.mk (some (.multi (jsSetDedup
          (ClientInferrer.typeTags s1.type ++ ClientInferrer.typeTags s2.type)))) none none none
          none none none ∧
    ServerInferrer.mergeSchemas s1 s2
      = Schema.mk (some (.multi (jsSetDedup
          (ServerInferrer.typeTags s1.type ++ ServerInferrer.typeTags s2.type)))) none none none
          none none none ∧
    (ClientInferrer.mergeSchemas (ClientInferrer.inferSchema (.num 1) false)
        (ClientInferrer.inferSchema (.str "x") false)).type
      = some (.multi ["integer", "string"]) := by
  have hd : ClientInferrer.typesDifferJS s1.type s2.type = true :=
    typesDifferC_of_tagSet_ne _ _ h
  have hds : ServerInferrer.typesDifferJS s1.type s2.type = true :=
    typesDifferS_of_tagSet_ne _ _ h
  refine ⟨?_, ?_, rfl⟩
  · cases s2 with
    | mk t2 f2 ps2 it2 req2 ex2 d2 =>
      rw [ClientInferrer.mergeSchemas.eq_def]
      simp only []
      rw [if_pos (show ClientInferrer.typesDifferJS s1.type t2 = true from hd)]
      rfl
  · exact serverMerge_union s1 s2 hds

theorem c4_type_union_witness :
    tagSet strSchema ≠ tagSet intSchema ∧
    ClientInferrer.mergeSchemas strSchema intSchema
      = Schema.mk (some (.multi (jsSetDedup
          (ClientInferrer.typeTags strSchema.type ++ ClientInferrer.typeTags intSchema.type))))
          none none none none none none ∧
    ServerInferrer.mergeSchemas strSchema intSchema
      = Schema.mk (some (.multi (jsSetDedup
          (ServerInferrer.typeTags strSchema.type ++ ServerInferrer.typeTags intSchema.type))))
          none none none none none none :=
  ⟨by decide,
   (c4_type_union strSchema intSchema (by decide)).1,
   (c4_type_union strSchema intSchema (by decide)).2.1⟩

/-- C6: for the two line topics, verbose mode yields two channels with the
sanitized literal ids, while the single level-1 substitution yields one
parameterized channel carrying the lineId parameter, for every regex host. -/
theorem c6_channel_scenario (compile : String → Option (String → Bool)) :
    ChannelManager.buildChannels compile [msgLine1, msgLine2] verboseCfg
      = Except.ok [⟨"line_1_temp", "line/1/temp", [], [msgLine1]⟩,
                   ⟨"line_2_temp", "line/2/temp", [], [msgLine2]⟩] ∧
    ChannelManager.buildChannels compile [msgLine1, msgLine2] paramCfg
      = Except.ok [⟨"line_lineId_temp", "line/" ++ lbraceS ++ "lineId" ++ rbraceS ++ "/temp",
                    [("lineId", ⟨none, none⟩)], [msgLine1, msgLine2]⟩] := by
  exact ⟨rfl, rfl⟩

/-- C7: an invalid regex pattern in a substitution rule aborts the whole
batch in the server channel construction, because the matcher compiles the
pattern with no try-catch: for every regex host that rejects the pattern, the
parameterized build returns an error instead of skipping the rule. The
browser channel manager by contrast catches the compilation error and leaves
the topic unchanged. -/
theorem c7_invalid_regex_aborts_batch
    (compile : String → Option (String → Bool))
    (compileG : String → String → Option (String → String))
    (topic : String)
    (hc : compile "[" = none) (hg : compileG "[" "x" = none) :
    ChannelManager.buildChannels compile [msgAB] badParamCfg
      = Except.error "SyntaxError: Invalid regular expression" ∧
    ClientChannelManager.applyTopicSubstitutions compileG topic [badSub] = topic := by
  constructor
  · simp [ChannelManager.buildChannels, badParamCfg, ChannelManager.buildParameterizedChannels,
      ChannelManager.applySubstitutions, ChannelManager.matchesSubstitution, badSub, msgAB,
      splitSlash, hc]
    rfl
  · simp [ClientChannelManager.applyTopicSubstitutions, badSub, hg]

theorem c7_invalid_regex_aborts_batch_witness :
    (fun _ : String => (none : Option (String → Bool))) "[" = none ∧
    ChannelManager.buildChannels (fun _ => none) [msgAB] badParamCfg
      = Except.error "SyntaxError: Invalid regular expression" ∧
    ClientChannelManager.applyTopicSubstitutions (fun _ _ => none) "a/b" [badSub] = "a/b" :=
  ⟨rfl,
   (c7_invalid_regex_aborts_batch (fun _ => none) (fun _ _ => none) "a/b" rfl rfl).1,
   (c7_invalid_regex_aborts_batch (fun _ => none) (fun _ _ => none) "a/b" rfl rfl).2⟩

/-- C8 counterexample: merging a 2.6 document with a 3.0 document, whose
version markers disagree, does not fail: the merge proceeds in the dialect of
the existing document and returns a merged document containing the incoming
channel. -/
theorem c8_mismatched_merge_counterexample :
    doc26.asyncapi ≠ doc30.asyncapi ∧
    Assembler.mergeAsyncAPIDocs doc26 doc30
      = ⟨"2.6.0", [("a/b", ch26), ("x_y", ch30)], [], [], []⟩ := by
  exact ⟨by simp [doc26, doc30], rfl⟩

/-- C8 (amended): the merge entry point determines the dialect solely from
the version marker of the existing document; the incoming marker is never
inspected, so the result does not change when it is replaced, mismatched or
absent markers are not detected, the merge never fails, and the merged
document keeps the marker of the existing document. -/
theorem c8_dialect_from_existing_only (d1 d2 : Assembler.AsyncAPIDocument) (v : String) :
    Assembler.mergeAsyncAPIDocs d1 ⟨v, d2.channels, d2.operations, d2.schemas, d2.messages⟩
      = Assembler.mergeAsyncAPIDocs d1 d2 ∧
    (Assembler.mergeAsyncAPIDocs d1 d2).asyncapi = d1.asyncapi := by
  constructor
  · by_cases h : strStarts d1.asyncapi "2." = true
    · simp only [Assembler.mergeAsyncAPIDocs, h, if_true]
      cases d2 with
      | mk a2 c2 o2 s2 m2 => rfl
    · simp only [Assembler.mergeAsyncAPIDocs, h, if_false]
      cases d2 with
      | mk a2 c2 o2 s2 m2 => rfl
  · by_cases h : strStarts d1.asyncapi "2." = true
    · simp only [Assembler.mergeAsyncAPIDocs, h, if_true]
      rfl
    · simp only [Assembler.mergeAsyncAPIDocs, h, if_false]
      rfl

theorem c6_channel_scenario_witness :
    ChannelManager.buildChannels (fun _ => none) [msgLine1, msgLine2] verboseCfg
      = Except.ok [⟨"line_1_temp", "line/1/temp", [], [msgLine1]⟩,
                   ⟨"line_2_temp", "line/2/temp", [], [msgLine2]⟩] ∧
    ChannelManager.buildChannels (fun _ => none) [msgLine1, msgLine2] paramCfg
      = Except.ok [⟨"line_lineId_temp", "line/" ++ lbraceS ++ "lineId" ++ rbraceS ++ "/temp",
                    [("lineId", ⟨none, none⟩)], [msgLine1, msgLine2]⟩] :=
  c6_channel_scenario (fun _ => none)

theorem c8_dialect_from_existing_only_witness :
    Assembler.mergeAsyncAPIDocs doc26
        ⟨"9.9.9", doc30.channels, doc30.operations, doc30.schemas, doc30.messages⟩
      = Assembler.mergeAsyncAPIDocs doc26 doc30 ∧
    (Assembler.mergeAsyncAPIDocs doc26 doc30).asyncapi = doc26.asyncapi :=
  c8_dialect_from_existing_only doc26 doc30 "9.9.9"

theorem c9_inferred_type_nonempty_witness :
    (∃ t, (ClientInferrer.inferSchema (JValue.num 1) true).type = some t ∧
      schemaTypeNonempty t) ∧
    (∃ t, (ServerInferrer.inferSchema (JValue.num 1) true).type = some t ∧
      schemaTypeNonempty t) :=
  c9_inferred_type_nonempty (JValue.num 1) true

theorem c10_empty_array_schema_witness :
    ClientInferrer.inferSchema (JValue.arr JList.nil) true
      = Schema.mk (some (.single "array")) none none none none none none ∧
    ServerInferrer.inferSchema (JValue.arr JList.nil) true
      = Schema.mk (some (.single "array")) none none none none none none :=
  c10_empty_array_schema true
